import Mathlib

/-!
Verification of the resource-management allocation engine.

Shallow embedding of the conflict-detection and allocation code in
`backend/utils/conflict.py` and `backend/routes/allocations.py`.

Modelling conventions:
- `datetime` values are modelled as `Int` timestamps in seconds, with the
  usual linear order; `timedelta.total_seconds()` of a difference is the
  integer difference, and the duration-in-hours computation of
  `validate_event_time` is carried out exactly in `Rat` (the Python code
  uses float division by 3600; over second-granularity inputs the two agree).
- the SQLAlchemy tables become lists of records (`events`, `resources`,
  `allocs`) inside a `DB` value; a query is a pure scan over those lists,
  preserving storage (insertion) order.
- Python dicts keyed by resource id become association lists with
  insert-or-overwrite (`dictInsert`), preserving first-insertion key order.
- Python truthiness tests are embedded literally: `if exclude_event_id:`
  is false for `None` and for `0`, and `if not data.get(k)` rejects the
  value `0` and the empty list.
- each route handler becomes a function `DB -> args -> result x DB`;
  every failure path returns the unchanged `DB` (the code returns before
  any `db.session.add`, or rolls back).
-/

namespace ResMgmt

/-- A time range `[start_time, end_time)` as handled by the conflict query. -/
structure TimeRange where
  start_time : Int
  end_time : Int
deriving DecidableEq

/-- The overlap test applied by the conflict query in
`check_resource_conflict` (conflict.py lines 32-38): an existing range `a`
is selected against a candidate range `b` iff
`a.start_time < b.end_time` and `a.end_time > b.start_time`. -/
def overlaps (a b : TimeRange) : Bool :=
  decide (a.start_time < b.end_time ∧ a.end_time > b.start_time)

/-- Row of the `event` table (models.py).  The fields `description` and
`created_at` are never read by the allocation engine and are omitted. -/
structure Event where
  event_id : Int
  title : String
  start_time : Int
  end_time : Int
deriving DecidableEq

/-- Row of the `resource` table (models.py); `created_at` omitted. -/
structure Resource where
  resource_id : Int
  resource_name : String
  resource_type : String
deriving DecidableEq

/-- Row of the `event_resource_allocation` table (models.py).
`allocation_id` and `allocated_at` are never read by the allocation
routes under verification and are omitted. -/
structure Alloc where
  event_id : Int
  resource_id : Int
deriving DecidableEq

/-- The database state seen by the engine. `events` and `resources` are
only read by the allocation routes; `allocs` is the mutable allocation
state. -/
structure DB where
  events : List Event
  resources : List Resource
  allocs : List Alloc
deriving DecidableEq

/-- The time range of an event. -/
def rangeOf (e : Event) : TimeRange := ⟨e.start_time, e.end_time⟩

/-- `Event.query.get(event_id)` : primary-key lookup in the event table. -/
def findEvent (db : DB) (eid : Int) : Option Event :=
  db.events.find? (fun e => e.event_id = eid)

/-- `Resource.query.get(resource_id)` : primary-key lookup. -/
def findResource (db : DB) (rid : Int) : Option Resource :=
  db.resources.find? (fun r => r.resource_id = rid)

/-- One entry of the conflict detail dict built in
`check_resource_conflict` (conflict.py lines 50-59). -/
structure ConflictRecord where
  event_id : Int
  title : String
  start_time : Int
  end_time : Int
  resource_id : Int
deriving DecidableEq

/-- An element of the list returned as second component by
`check_resource_conflict`: either the single `{"error": ...}` diagnostic
dict produced on an invalid range, or a conflict-detail dict. -/
inductive ConflictEntry where
  | err (msg : String)
  | record (r : ConflictRecord)
deriving DecidableEq

/-- The error message of the invalid-range diagnostic. -/
def errInvalidRange : String := "Start time must be before end time"

/-- The body of the overlap query (conflict.py lines 32-38) evaluated at a
single allocation row `a`: the join `Event.event_id ==
EventResourceAllocation.event_id` becomes a lookup of the allocation's
event, and the filters `resource_id == resource_id`,
`Event.start_time < end_time`, `Event.end_time > start_time` become the
conditions below. -/
def scanAlloc (db : DB) (resource_id start_time end_time : Int) (a : Alloc) :
    Option Event :=
  if a.resource_id = resource_id then
    match findEvent db a.event_id with
    | some e => if overlaps (rangeOf e) ⟨start_time, end_time⟩ then some e else none
    | none => none
  else none

/-- The rows produced by the overlap query before the exclusion filter,
in storage order of the allocation table. -/
def conflictScan (db : DB) (resource_id start_time end_time : Int) : List Event :=
  db.allocs.filterMap (scanAlloc db resource_id start_time end_time)

/-- The full overlap query of `check_resource_conflict`, including the
exclusion filter guarded by Python truthiness (conflict.py lines 40-42:
`if exclude_event_id:` is false both for `None` and for `0`, so the
filter `Event.event_id != exclude_event_id` is applied only when a
non-zero id is supplied). -/
def conflictQuery (db : DB) (resource_id start_time end_time : Int)
    (exclude_event_id : Option Int) : List Event :=
  match exclude_event_id with
  | some k =>
      if k ≠ 0 then
        (conflictScan db resource_id start_time end_time).filter
          (fun e => e.event_id ≠ k)
      else conflictScan db resource_id start_time end_time
  | none => conflictScan db resource_id start_time end_time

/-- `check_resource_conflict` (conflict.py lines 4-61). -/
def check_resource_conflict (db : DB) (resource_id start_time end_time : Int)
    (exclude_event_id : Option Int) : Bool × List ConflictEntry :=
  if start_time ≥ end_time then
    (false, [ConflictEntry.err errInvalidRange])
  else
    let conflicts := conflictQuery db resource_id start_time end_time exclude_event_id
    if conflicts.length = 0 then (true, [])
    else
      (false, conflicts.map (fun e =>
        ConflictEntry.record ⟨e.event_id, e.title, e.start_time, e.end_time, resource_id⟩))

/-- Insert-or-overwrite into an association list, modelling assignment to
a Python dict key: an existing key keeps its position and gets the new
value, a fresh key is appended. -/
def dictInsert {α : Type} (m : List (Int × α)) (k : Int) (v : α) : List (Int × α) :=
  if m.any (fun p => p.1 = k) then
    m.map (fun p => if p.1 = k then (k, v) else p)
  else m ++ [(k, v)]

/-- `check_multiple_resources_conflict` (conflict.py lines 64-89): runs
the single check per resource id and collects the results in a dict keyed
by resource id. -/
def check_multiple_resources_conflict (db : DB) (resource_ids : List Int)
    (start_time end_time : Int) (exclude_event_id : Option Int) :
    List (Int × (Bool × List ConflictEntry)) :=
  resource_ids.foldl
    (fun results rid =>
      dictInsert results rid
        (check_resource_conflict db rid start_time end_time exclude_event_id))
    []

/-- `validate_event_time` (conflict.py lines 92-113).  The duration in
hours is computed exactly (`(end - start).total_seconds() / 3600`). -/
def validate_event_time (start_time end_time : Int) : Bool × Option String :=
  if start_time ≥ end_time then
    (false, some "Start time must be before end time")
  else
    let duration : Rat := ((end_time - start_time : Int) : Rat) / 3600
    if duration > 24 then (false, some "Event duration cannot exceed 24 hours")
    else (true, none)

/-- `existing_allocation = EventResourceAllocation.query.filter_by(
event_id=..., resource_id=...).first()` tested for presence. -/
def pairExists (allocs : List Alloc) (eid rid : Int) : Bool :=
  allocs.any (fun a => a.event_id = eid ∧ a.resource_id = rid)

/-- Outcome of the single-allocation route `create_allocation`. -/
inductive AllocResult where
  | missingFields
  | notFoundEvent
  | notFoundResource
  | alreadyAllocated
  | conflictDetected (conflicts : List ConflictEntry)
  | ok
deriving DecidableEq

/-- `create_allocation` (allocations.py lines 49-140).  The JSON guard
`if not data.get('event_id') or not data.get('resource_id')` rejects a
missing field and also the integer `0` (Python truthiness). -/
def create_allocation (db : DB) (event_id resource_id : Int) : AllocResult × DB :=
  if event_id = 0 ∨ resource_id = 0 then (.missingFields, db)
  else
    match findEvent db event_id with
    | none => (.notFoundEvent, db)
    | some ev =>
      match findResource db resource_id with
      | none => (.notFoundResource, db)
      | some _ =>
        if pairExists db.allocs event_id resource_id then (.alreadyAllocated, db)
        else
          if (check_resource_conflict db resource_id ev.start_time ev.end_time none).1 then
            (.ok, { db with allocs := db.allocs ++ [⟨event_id, resource_id⟩] })
          else
            (.conflictDetected
              (check_resource_conflict db resource_id ev.start_time ev.end_time none).2, db)

/-- Outcome of the batch-allocation route `create_batch_allocations`. -/
inductive BatchResult where
  | missingFields
  | notFoundEvent
  | conflictDetected (conflicts : List (Int × List ConflictEntry))
  | ok (allocated : List Int)
deriving DecidableEq

/-- One iteration of the allocation loop of `create_batch_allocations`
(allocations.py lines 196-209).  The `existing` query runs against the
session, which autoflushes pending adds, so within one batch it sees the
allocations accumulated so far (`acc.2`). -/
def batchStep (event_id : Int) (acc : List Int × List Alloc) (rid : Int) :
    List Int × List Alloc :=
  if pairExists acc.2 event_id rid then acc
  else (acc.1 ++ [rid], acc.2 ++ [⟨event_id, rid⟩])

/-- The `conflicts_found` dict of `create_batch_allocations`
(allocations.py lines 181-185): the entries of the multi-resource check
whose availability flag is false, mapped to (resource id, conflict list). -/
def batchConflictsFound (db : DB) (ev : Event) (resource_ids : List Int) :
    List (Int × List ConflictEntry) :=
  ((check_multiple_resources_conflict db resource_ids ev.start_time ev.end_time none).filter
    (fun p => p.2.1 = false)).map (fun p => (p.1, p.2.2))

/-- `create_batch_allocations` (allocations.py lines 143-224).  The guard
`if not data.get('event_id') or not data.get('resource_ids')` rejects the
id `0` and the empty list (Python truthiness). -/
def create_batch_allocations (db : DB) (event_id : Int) (resource_ids : List Int) :
    BatchResult × DB :=
  if event_id = 0 ∨ resource_ids.isEmpty then (.missingFields, db)
  else
    match findEvent db event_id with
    | none => (.notFoundEvent, db)
    | some ev =>
      if (batchConflictsFound db ev resource_ids).isEmpty = false then
        (.conflictDetected (batchConflictsFound db ev resource_ids), db)
      else
        let final := resource_ids.foldl (batchStep event_id) ([], db.allocs)
        (.ok final.1, { db with allocs := final.2 })

/-- The allocation-row scan underlying "the events holding an allocation
to a resource": keep an allocation if it binds `rid` and resolve it to
its event. -/
def allocScan (db : DB) (rid : Int) (a : Alloc) : Option Event :=
  if a.resource_id = rid then findEvent db a.event_id else none

/-- The events holding an allocation to resource `rid`, in allocation
storage order (an event may appear once per allocation row). -/
def allocatedEvents (db : DB) (rid : Int) : List Event :=
  db.allocs.filterMap (allocScan db rid)

/-- The no-double-booking invariant (spec section 3 / section 8): for
every resource, the time ranges of distinct events holding an allocation
to it are pairwise non-overlapping. -/
def NoDoubleBooking (db : DB) : Prop :=
  ∀ rid : Int, ∀ e1 ∈ allocatedEvents db rid, ∀ e2 ∈ allocatedEvents db rid,
    e1.event_id ≠ e2.event_id → overlaps (rangeOf e1) (rangeOf e2) = false

/-- A mutating call to the engine: single or batch allocation. -/
inductive Cmd where
  | alloc (event_id resource_id : Int)
  | batch (event_id : Int) (resource_ids : List Int)

/-- The state after running one call (failed calls leave the state
unchanged: every failure path of the routes returns before mutating, or
rolls back). -/
def applyCmd (db : DB) : Cmd → DB
  | .alloc e r => (create_allocation db e r).2
  | .batch e rs => (create_batch_allocations db e rs).2

/-- Whether a call succeeds in a given state. -/
def cmdSucceeds (db : DB) : Cmd → Prop
  | .alloc e r => (create_allocation db e r).1 = .ok
  | .batch e rs => ∃ out, (create_batch_allocations db e rs).1 = .ok out

/-- Run a sequence of calls. -/
def runCmds (db : DB) (cs : List Cmd) : DB := cs.foldl applyCmd db

/-- Every call of the sequence succeeds in the state where it runs. -/
inductive AllSucceed : DB → List Cmd → Prop where
  | nil (db : DB) : AllSucceed db []
  | cons {db : DB} {c : Cmd} {cs : List Cmd} :
      cmdSucceeds db c → AllSucceed (applyCmd db c) cs → AllSucceed db (c :: cs)

/-- Database wellformedness guaranteed by the storage layer: primary keys
of the event table are unique and positive (SQLite integer primary keys
are assigned from 1 upwards), and the unique constraint on
(event_id, resource_id) holds for the allocation table. -/
def WellFormed (db : DB) : Prop :=
  (db.events.map Event.event_id).Nodup ∧
  (∀ e ∈ db.events, 1 ≤ e.event_id) ∧
  (db.allocs.map (fun a => (a.event_id, a.resource_id))).Nodup

/-- Spec-side predicate: event `ev` holds an allocation to resource `rid`. -/
def holdsAllocation (db : DB) (ev : Event) (rid : Int) : Prop :=
  ∃ a ∈ db.allocs, a.event_id = ev.event_id ∧ a.resource_id = rid

/-- Spec-side predicate: `ev` is not the excluded event (vacuous when no
exclusion is supplied). -/
def notExcluded (exclude_event_id : Option Int) (ev : Event) : Prop :=
  ∀ k, exclude_event_id = some k → ev.event_id ≠ k

/-- The conflict record the checker builds for an event. -/
def recordFor (ev : Event) (rid : Int) : ConflictRecord :=
  ⟨ev.event_id, ev.title, ev.start_time, ev.end_time, rid⟩

/-- Number of allocation rows for a given (event, resource) pair. -/
def countPair (allocs : List Alloc) (eid rid : Int) : Nat :=
  (allocs.filter (fun a => a.event_id = eid ∧ a.resource_id = rid)).length

/-- Concrete state: event 1 over [0, 10) already allocated resource 1. -/
def dbSelf : DB := ⟨[⟨1, "A", 0, 10⟩], [⟨1, "Room", "room"⟩], [⟨1, 1⟩]⟩

/-- Concrete state: three events, event 1 over [0, 10) holds resource 1;
event 2 over [5, 15) overlaps it, event 3 over [10, 20) is adjacent. -/
def dbTwo : DB :=
  ⟨[⟨1, "A", 0, 10⟩, ⟨2, "B", 5, 15⟩, ⟨3, "C", 10, 20⟩],
   [⟨1, "Room", "room"⟩, ⟨2, "Proj", "equipment"⟩], [⟨1, 1⟩]⟩

/-- Concrete state: two adjacent events and one free resource. -/
def dbEmpty : DB := ⟨[⟨1, "A", 0, 10⟩, ⟨2, "B", 10, 20⟩], [⟨1, "Room", "room"⟩], []⟩

section Theorems

/-- The overlap predicate is commutative (helper). -/
theorem overlaps_comm (a b : TimeRange) : overlaps a b = overlaps b a := by
  simp only [overlaps, decide_eq_decide]
  constructor <;> rintro ⟨h1, h2⟩ <;> exact ⟨by omega, by omega⟩

/-- Unfolding of the overlap predicate (helper). -/
theorem overlaps_iff (a b : TimeRange) :
    overlaps a b = true ↔ a.start_time < b.end_time ∧ a.end_time > b.start_time := by
  simp [overlaps]

/-- C4: the overlap test applied by the conflict query holds iff
`A.start < B.end` and `A.end > B.start`; back-to-back ranges (one's end
equal to the other's start) do not overlap, while full containment on
either side, partial overlap on either side, and exact coincidence all
overlap. -/
theorem c4_overlap_predicate (A B : TimeRange) :
    (overlaps A B = true ↔ A.start_time < B.end_time ∧ A.end_time > B.start_time) ∧
    (A.end_time = B.start_time → overlaps A B = false) ∧
    (B.end_time = A.start_time → overlaps A B = false) ∧
    (A.start_time ≤ B.start_time → B.end_time ≤ A.end_time → B.start_time < B.end_time →
      overlaps A B = true) ∧
    (B.start_time ≤ A.start_time → A.end_time ≤ B.end_time → A.start_time < A.end_time →
      overlaps A B = true) ∧
    (A.start_time < B.start_time → B.start_time < A.end_time → A.end_time < B.end_time →
      overlaps A B = true) ∧
    (B.start_time < A.start_time → A.start_time < B.end_time → B.end_time < A.end_time →
      overlaps A B = true) ∧
    (A = B → A.start_time < A.end_time → overlaps A B = true) := by
  refine ⟨by simp [overlaps], ?_, ?_, ?_, ?_, ?_, ?_, ?_⟩
  · intro h; simp only [overlaps, decide_eq_false_iff_not]; omega
  · intro h; simp only [overlaps, decide_eq_false_iff_not]; omega
  · intro h1 h2 h3; simp only [overlaps, decide_eq_true_eq]; omega
  · intro h1 h2 h3; simp only [overlaps, decide_eq_true_eq]; omega
  · intro h1 h2 h3; simp only [overlaps, decide_eq_true_eq]; omega
  · intro h1 h2 h3; simp only [overlaps, decide_eq_true_eq]; omega
  · intro hAB h; subst hAB; simp only [overlaps, decide_eq_true_eq]; omega

/-- Witness for C4: the eight cases at concrete ranges. -/
theorem c4_overlap_predicate_witness :
    (overlaps ⟨0, 5⟩ ⟨5, 9⟩ = false) ∧
    (overlaps ⟨5, 9⟩ ⟨0, 5⟩ = false) ∧
    (overlaps ⟨0, 10⟩ ⟨2, 5⟩ = true) ∧
    (overlaps ⟨2, 5⟩ ⟨0, 10⟩ = true) ∧
    (overlaps ⟨0, 5⟩ ⟨3, 8⟩ = true) ∧
    (overlaps ⟨3, 8⟩ ⟨0, 5⟩ = true) ∧
    (overlaps ⟨0, 5⟩ ⟨0, 5⟩ = true) :=
  ⟨(c4_overlap_predicate ⟨0, 5⟩ ⟨5, 9⟩).2.1 rfl,
   (c4_overlap_predicate ⟨5, 9⟩ ⟨0, 5⟩).2.2.1 rfl,
   (c4_overlap_predicate ⟨0, 10⟩ ⟨2, 5⟩).2.2.2.1 (by decide) (by decide) (by decide),
   (c4_overlap_predicate ⟨2, 5⟩ ⟨0, 10⟩).2.2.2.2.1 (by decide) (by decide) (by decide),
   (c4_overlap_predicate ⟨0, 5⟩ ⟨3, 8⟩).2.2.2.2.2.1 (by decide) (by decide) (by decide),
   (c4_overlap_predicate ⟨3, 8⟩ ⟨0, 5⟩).2.2.2.2.2.2.1 (by decide) (by decide) (by decide),
   (c4_overlap_predicate ⟨0, 5⟩ ⟨0, 5⟩).2.2.2.2.2.2.2 rfl (by decide)⟩

/-- C9: the overlap predicate is symmetric, and adjacency
(`A.end = B.start`) never overlaps. -/
theorem c9_overlap_symmetry (A B : TimeRange) :
    overlaps A B = overlaps B A ∧ (A.end_time = B.start_time → overlaps A B = false) := by
  refine ⟨overlaps_comm A B, ?_⟩
  intro h; simp only [overlaps, decide_eq_false_iff_not]; omega

/-- Witness for C9 at the adjacent ranges [0,5) and [5,7). -/
theorem c9_overlap_symmetry_witness :
    overlaps ⟨0, 5⟩ ⟨5, 7⟩ = overlaps ⟨5, 7⟩ ⟨0, 5⟩ ∧ overlaps ⟨0, 5⟩ ⟨5, 7⟩ = false :=
  ⟨(c9_overlap_symmetry ⟨0, 5⟩ ⟨5, 7⟩).1, (c9_overlap_symmetry ⟨0, 5⟩ ⟨5, 7⟩).2 rfl⟩

/-- C5: the validator fails with the invalid-range message whenever
`start >= end`, fails with the duration message whenever `start < end`
and the duration strictly exceeds 24 hours (86400 seconds), and succeeds
otherwise.  It is a pure function of its two arguments: it reads no
database state and has no side effects. -/
theorem c5_validator (start_time end_time : Int) :
    (start_time ≥ end_time →
      validate_event_time start_time end_time =
        (false, some "Start time must be before end time")) ∧
    (start_time < end_time → end_time - start_time > 86400 →
      validate_event_time start_time end_time =
        (false, some "Event duration cannot exceed 24 hours")) ∧
    (start_time < end_time → end_time - start_time ≤ 86400 →
      validate_event_time start_time end_time = (true, none)) := by
  have key : ∀ d : Int, ((d : Rat) / 3600 > 24) ↔ d > 86400 := by
    intro d
    rw [gt_iff_lt, lt_div_iff₀ (by norm_num : (0 : Rat) < 3600)]
    rw [show (24 : Rat) * 3600 = ((86400 : Int) : Rat) by norm_num]
    exact ⟨fun h => by exact_mod_cast h, fun h => by exact_mod_cast h⟩
  refine ⟨?_, ?_, ?_⟩
  · intro h; simp [validate_event_time, h]
  · intro h1 h2
    have hn : ¬ start_time ≥ end_time := by omega
    simp only [validate_event_time, if_neg hn]
    rw [if_pos ((key _).mpr h2)]
  · intro h1 h2
    have hn : ¬ start_time ≥ end_time := by omega
    have hd : ¬ (((end_time - start_time : Int) : Rat) / 3600 > 24) := by
      rw [key]; omega
    simp only [validate_event_time, if_neg hn, if_neg hd]

/-- Witness for C5: the spec's boundary examples with 10:00 = 36000 s:
(10:00, 10:00) and (10:00, 9:59) invalid, (10:00, next-day 10:01)
exceeds the duration cap, (10:00, 11:00) is valid. -/
theorem c5_validator_witness :
    validate_event_time 36000 36000 = (false, some "Start time must be before end time") ∧
    validate_event_time 36000 35940 = (false, some "Start time must be before end time") ∧
    validate_event_time 36000 122460 = (false, some "Event duration cannot exceed 24 hours") ∧
    validate_event_time 36000 39600 = (true, none) :=
  ⟨(c5_validator 36000 36000).1 (by decide),
   (c5_validator 36000 35940).1 (by decide),
   (c5_validator 36000 122460).2.1 (by decide) (by decide),
   (c5_validator 36000 39600).2.2 (by decide) (by decide)⟩

/-- C8: on an inverted or empty range the checker answers
`available = false` with the single invalid-range diagnostic entry, and
the answer does not depend on the database state at all. -/
theorem c8_invalid_range (db db2 : DB) (rid start_time end_time : Int)
    (ex : Option Int) (h : start_time ≥ end_time) :
    check_resource_conflict db rid start_time end_time ex =
      (false, [ConflictEntry.err errInvalidRange]) ∧
    check_resource_conflict db rid start_time end_time ex =
      check_resource_conflict db2 rid start_time end_time ex := by
  constructor <;> simp [check_resource_conflict, h]

/-- Witness for C8 at an empty range, comparing two different states. -/
theorem c8_invalid_range_witness :
    check_resource_conflict dbSelf 1 10 10 none =
      (false, [ConflictEntry.err errInvalidRange]) ∧
    check_resource_conflict dbSelf 1 10 10 none =
      check_resource_conflict dbEmpty 1 10 10 none :=
  c8_invalid_range dbSelf dbEmpty 1 10 10 none (by decide)

/-- C10: supplying `exclude_event_id = 0` behaves exactly like supplying
no exclusion: the Python guard `if exclude_event_id:` treats 0 as falsy,
so the exclusion filter is not applied. -/
theorem c10_exclude_zero (db : DB) (rid start_time end_time : Int)
    (_h : start_time < end_time) :
    check_resource_conflict db rid start_time end_time (some 0) =
      check_resource_conflict db rid start_time end_time none := by
  simp [check_resource_conflict, conflictQuery]

/-- Witness for C10 on a state where the checked range overlaps the
allocated event. -/
theorem c10_exclude_zero_witness :
    check_resource_conflict dbSelf 1 5 15 (some 0) =
      check_resource_conflict dbSelf 1 5 15 none :=
  c10_exclude_zero dbSelf 1 5 15 (by decide)

/-- Characterization of the per-row scan of the overlap query (helper). -/
theorem scanAlloc_eq_some_iff (db : DB) (rid s e : Int) (a : Alloc) (ev : Event) :
    scanAlloc db rid s e a = some ev ↔
      a.resource_id = rid ∧ findEvent db a.event_id = some ev ∧
        overlaps (rangeOf ev) ⟨s, e⟩ = true := by
  constructor
  · intro h
    unfold scanAlloc at h
    split at h
    · rename_i h1
      split at h
      · rename_i e0 hfe
        split at h
        · rename_i h2
          cases h
          exact ⟨h1, hfe, h2⟩
        · cases h
      · cases h
    · cases h
  · rintro ⟨h1, hfe, h2⟩
    simp [scanAlloc, h1, hfe, h2]

/-- Membership in the pre-exclusion overlap scan (helper). -/
theorem mem_conflictScan (db : DB) (rid s e : Int) (ev : Event) :
    ev ∈ conflictScan db rid s e ↔
      ∃ a ∈ db.allocs, a.resource_id = rid ∧ findEvent db a.event_id = some ev ∧
        overlaps (rangeOf ev) ⟨s, e⟩ = true := by
  unfold conflictScan
  rw [List.mem_filterMap]
  constructor
  · rintro ⟨a, ha, hs⟩
    exact ⟨a, ha, (scanAlloc_eq_some_iff db rid s e a ev).mp hs⟩
  · rintro ⟨a, ha, h⟩
    exact ⟨a, ha, (scanAlloc_eq_some_iff db rid s e a ev).mpr h⟩

/-- A successful event lookup returns a member with the requested id
(helper). -/
theorem findEvent_eq_some (db : DB) (i : Int) (ev : Event)
    (h : findEvent db i = some ev) : ev ∈ db.events ∧ ev.event_id = i := by
  refine ⟨List.mem_of_find?_eq_some h, ?_⟩
  have := List.find?_some h
  simpa using this

/-- With unique event ids, looking up a member's own id finds it
(list-level helper). -/
theorem find?_eventId_nodup (l : List Event) (ev : Event)
    (hnd : (l.map Event.event_id).Nodup) (hm : ev ∈ l) :
    l.find? (fun x => x.event_id = ev.event_id) = some ev := by
  induction l with
  | nil => cases hm
  | cons h t ih =>
    rw [List.map_cons, List.nodup_cons] at hnd
    rcases List.mem_cons.mp hm with rfl | hmt
    · rw [List.find?_cons_of_pos _ (by simp)]
    · have hne : h.event_id ≠ ev.event_id := by
        intro heq
        exact hnd.1 (heq ▸ List.mem_map_of_mem Event.event_id hmt)
      rw [List.find?_cons_of_neg _ (by simp [hne])]
      exact ih hnd.2 hmt

/-- With unique event ids, `findEvent` at a member's id returns it
(helper). -/
theorem findEvent_of_mem (db : DB) (ev : Event)
    (hnd : (db.events.map Event.event_id).Nodup) (hm : ev ∈ db.events) :
    findEvent db ev.event_id = some ev :=
  find?_eventId_nodup db.events ev hnd hm

/-- Membership in the full overlap query, with the truthiness-guarded
exclusion (helper). -/
theorem mem_conflictQuery (db : DB) (rid s e : Int) (ex : Option Int) (ev : Event) :
    ev ∈ conflictQuery db rid s e ex ↔
      ev ∈ conflictScan db rid s e ∧
        (∀ k, ex = some k → k ≠ 0 → ev.event_id ≠ k) := by
  cases ex with
  | none =>
    simp only [conflictQuery]
    constructor
    · intro h
      exact ⟨h, by rintro k hk; cases hk⟩
    · rintro ⟨h, -⟩; exact h
  | some k =>
    simp only [conflictQuery]
    by_cases hk : k ≠ 0
    · rw [if_pos hk, List.mem_filter]
      constructor
      · rintro ⟨h1, h2⟩
        refine ⟨h1, ?_⟩
        rintro k' hk' -
        cases hk'
        simpa using h2
      · rintro ⟨h1, h2⟩
        exact ⟨h1, by simpa using h2 k rfl hk⟩
    · rw [if_neg hk]
      push_neg at hk
      subst hk
      constructor
      · intro h
        refine ⟨h, ?_⟩
        rintro k' hk' hne
        cases hk'
        exact absurd rfl hne
      · rintro ⟨h, -⟩; exact h

/-- Membership in the overlap query over a wellformed database, phrased
through the spec-side predicates (helper). -/
theorem mem_conflictQuery_wf (db : DB) (rid s e : Int) (ex : Option Int)
    (ev : Event) (hwf : WellFormed db) :
    ev ∈ conflictQuery db rid s e ex ↔
      ev ∈ db.events ∧ holdsAllocation db ev rid ∧ notExcluded ex ev ∧
        overlaps (rangeOf ev) ⟨s, e⟩ = true := by
  obtain ⟨hnd, hpos, hpair⟩ := hwf
  rw [mem_conflictQuery, mem_conflictScan]
  constructor
  · rintro ⟨⟨a, ha, har, hfe, hov⟩, hex⟩
    obtain ⟨hm, hid⟩ := findEvent_eq_some db a.event_id ev hfe
    refine ⟨hm, ⟨a, ha, hid.symm, har⟩, ?_, hov⟩
    intro k hk
    by_cases hk0 : k = 0
    · subst hk0
      have := hpos ev hm
      omega
    · exact hex k hk hk0
  · rintro ⟨hm, ⟨a, ha, haid, har⟩, hex, hov⟩
    refine ⟨⟨a, ha, har, ?_, hov⟩, ?_⟩
    · rw [show a.event_id = ev.event_id from haid]
      exact findEvent_of_mem db ev hnd hm
    · intro k hk _
      exact hex k hk

/-- Under the (event_id, resource_id) unique constraint, the event ids
produced by the overlap scan are pairwise distinct (list-level helper). -/
theorem scan_eventIds_nodup (db : DB) (rid s e : Int) (l : List Alloc)
    (hpair : (l.map (fun a => (a.event_id, a.resource_id))).Nodup) :
    ((l.filterMap (scanAlloc db rid s e)).map Event.event_id).Nodup := by
  induction l with
  | nil => simp
  | cons a t ih =>
    rw [List.map_cons, List.nodup_cons] at hpair
    rw [List.filterMap_cons]
    cases hsc : scanAlloc db rid s e a with
    | none => exact ih hpair.2
    | some ev =>
      rw [List.map_cons, List.nodup_cons]
      refine ⟨?_, ih hpair.2⟩
      intro hmem
      rw [List.mem_map] at hmem
      obtain ⟨ev2, hev2, hid⟩ := hmem
      rw [List.mem_filterMap] at hev2
      obtain ⟨a2, ha2, hsc2⟩ := hev2
      obtain ⟨har, hfe, -⟩ := (scanAlloc_eq_some_iff db rid s e a ev).mp hsc
      obtain ⟨har2, hfe2, -⟩ := (scanAlloc_eq_some_iff db rid s e a2 ev2).mp hsc2
      have hide : ev.event_id = a.event_id := (findEvent_eq_some db a.event_id ev hfe).2
      have hide2 : ev2.event_id = a2.event_id := (findEvent_eq_some db a2.event_id ev2 hfe2).2
      apply hpair.1
      have hpe : (a2.event_id, a2.resource_id) = (a.event_id, a.resource_id) := by
        rw [har, har2, ← hide, ← hide2, hid]
      rw [← hpe]
      exact List.mem_map_of_mem _ ha2

/-- Event ids of the full overlap query are pairwise distinct (helper). -/
theorem conflictQuery_eventIds_nodup (db : DB) (rid s e : Int) (ex : Option Int)
    (hpair : (db.allocs.map (fun a => (a.event_id, a.resource_id))).Nodup) :
    ((conflictQuery db rid s e ex).map Event.event_id).Nodup := by
  have base := scan_eventIds_nodup db rid s e db.allocs hpair
  cases ex with
  | none => simpa only [conflictQuery, conflictScan] using base
  | some k =>
    simp only [conflictQuery, conflictScan]
    by_cases hk : k ≠ 0
    · rw [if_pos hk]
      exact List.Nodup.sublist (List.Sublist.map _ (List.filter_sublist _)) base
    · rw [if_neg hk]
      exact base

/-- The conflict-detail list of the checker is the mapped overlap query,
whether or not it is empty (helper). -/
theorem check_snd_eq (db : DB) (rid s e : Int) (ex : Option Int) (h : ¬ s ≥ e) :
    (check_resource_conflict db rid s e ex).2 =
      (conflictQuery db rid s e ex).map
        (fun ev => ConflictEntry.record (recordFor ev rid)) := by
  unfold check_resource_conflict
  rw [if_neg h]
  by_cases hq : (conflictQuery db rid s e ex).length = 0
  · rw [if_pos hq]
    simp [List.length_eq_zero.mp hq]
  · rw [if_neg hq]
    simp [recordFor]

/-- Availability is emptiness of the overlap query (helper). -/
theorem check_fst_iff (db : DB) (rid s e : Int) (ex : Option Int) (h : ¬ s ≥ e) :
    (check_resource_conflict db rid s e ex).1 = true ↔
      conflictQuery db rid s e ex = [] := by
  unfold check_resource_conflict
  rw [if_neg h]
  by_cases hq : (conflictQuery db rid s e ex).length = 0
  · rw [if_pos hq]
    simp [List.length_eq_zero.mp hq]
  · rw [if_neg hq]
    simp only [Bool.false_eq_true, false_iff]
    intro hc
    exact hq (by rw [hc]; rfl)

/-- The record builder determines the event (helper). -/
theorem recordFor_inj (ev1 ev2 : Event) (rid : Int)
    (h : recordFor ev1 rid = recordFor ev2 rid) : ev1 = ev2 := by
  cases ev1; cases ev2
  simp only [recordFor, ConflictRecord.mk.injEq] at h
  simp only [Event.mk.injEq]
  exact ⟨h.1, h.2.1, h.2.2.1, h.2.2.2.1⟩

/-- C7: over a wellformed database, for a valid candidate range the
checker reports available exactly when no event holding an allocation to
the resource (other than the excluded one, when an exclusion is
supplied) overlaps the range; when unavailable its conflict list holds
exactly one record per such overlapping event, carrying that event's id,
title, start, end and the checked resource id.  The checker is a pure
function and mutates no state (it returns no updated database). -/
theorem c7_check_conflict (db : DB) (rid start_time end_time : Int)
    (ex : Option Int) (hwf : WellFormed db) (hse : start_time < end_time) :
    ((check_resource_conflict db rid start_time end_time ex).1 = true ↔
      ∀ ev ∈ db.events, holdsAllocation db ev rid → notExcluded ex ev →
        overlaps (rangeOf ev) ⟨start_time, end_time⟩ = false) ∧
    (∀ ev ∈ db.events,
      (holdsAllocation db ev rid ∧ notExcluded ex ev ∧
        overlaps (rangeOf ev) ⟨start_time, end_time⟩ = true) ↔
      ConflictEntry.record (recordFor ev rid) ∈
        (check_resource_conflict db rid start_time end_time ex).2) ∧
    ((check_resource_conflict db rid start_time end_time ex).2).Nodup ∧
    (∀ c ∈ (check_resource_conflict db rid start_time end_time ex).2,
      ∃ ev ∈ db.events, c = ConflictEntry.record (recordFor ev rid) ∧
        holdsAllocation db ev rid ∧ notExcluded ex ev ∧
        overlaps (rangeOf ev) ⟨start_time, end_time⟩ = true) := by
  have hns : ¬ start_time ≥ end_time := by omega
  have hsnd := check_snd_eq db rid start_time end_time ex hns
  refine ⟨?_, ?_, ?_, ?_⟩
  · rw [check_fst_iff db rid start_time end_time ex hns,
      List.eq_nil_iff_forall_not_mem]
    constructor
    · intro h ev hm hall hexc
      have hnin := h ev
      rw [mem_conflictQuery_wf db rid start_time end_time ex ev hwf] at hnin
      by_cases hov : overlaps (rangeOf ev) ⟨start_time, end_time⟩ = true
      · exact absurd ⟨hm, hall, hexc, hov⟩ hnin
      · simpa using hov
    · intro h ev hin
      rw [mem_conflictQuery_wf db rid start_time end_time ex ev hwf] at hin
      obtain ⟨hm, hall, hexc, hov⟩ := hin
      rw [h ev hm hall hexc] at hov
      cases hov
  · intro ev hm
    rw [hsnd, List.mem_map]
    constructor
    · rintro ⟨hall, hexc, hov⟩
      exact ⟨ev, (mem_conflictQuery_wf db rid start_time end_time ex ev hwf).mpr
        ⟨hm, hall, hexc, hov⟩, rfl⟩
    · rintro ⟨ev2, hev2, heq⟩
      have hre : ev2 = ev := by
        have := heq
        simp only [ConflictEntry.record.injEq] at this
        exact recordFor_inj ev2 ev rid this
      subst hre
      have := (mem_conflictQuery_wf db rid start_time end_time ex ev2 hwf).mp hev2
      exact ⟨this.2.1, this.2.2.1, this.2.2.2⟩
  · rw [hsnd]
    have hq := conflictQuery_eventIds_nodup db rid start_time end_time ex hwf.2.2
    refine List.Nodup.map ?_ (List.Nodup.of_map Event.event_id hq)
    intro x y hxy
    simp only [ConflictEntry.record.injEq] at hxy
    exact recordFor_inj x y rid hxy
  · intro c hc
    rw [hsnd, List.mem_map] at hc
    obtain ⟨ev, hev, heq⟩ := hc
    have := (mem_conflictQuery_wf db rid start_time end_time ex ev hwf).mp hev
    exact ⟨ev, this.1, heq.symm, this.2.1, this.2.2.1, this.2.2.2⟩

/-- Witness for C7: the checker's conflict list on a concrete wellformed
state has no duplicate entries, and availability is false there. -/
theorem c7_check_conflict_witness :
    ((check_resource_conflict dbTwo 1 5 15 none).2).Nodup ∧
    ((check_resource_conflict dbTwo 1 5 15 none).1 = true ↔
      ∀ ev ∈ dbTwo.events, holdsAllocation dbTwo ev 1 → notExcluded none ev →
        overlaps (rangeOf ev) ⟨5, 15⟩ = false) :=
  ⟨(c7_check_conflict dbTwo 1 5 15 none (by unfold WellFormed; decide) (by decide)).2.2.1,
   (c7_check_conflict dbTwo 1 5 15 none (by unfold WellFormed; decide) (by decide)).1⟩

/-- Updating the allocation table does not change event lookups
(helper). -/
theorem findEvent_update_allocs (db : DB) (l : List Alloc) (i : Int) :
    findEvent { db with allocs := l } i = findEvent db i := rfl

/-- Updating the allocation table does not change resource lookups
(helper). -/
theorem findResource_update_allocs (db : DB) (l : List Alloc) (i : Int) :
    findResource { db with allocs := l } i = findResource db i := rfl

/-- Unfolding of `pairExists = false` (helper). -/
theorem pairExists_false_iff (allocs : List Alloc) (eid rid : Int) :
    pairExists allocs eid rid = false ↔
      ∀ a ∈ allocs, ¬(a.event_id = eid ∧ a.resource_id = rid) := by
  unfold pairExists
  rw [List.any_eq_false]
  simp

/-- Unfolding of `pairExists = true` (helper). -/
theorem pairExists_true_iff (allocs : List Alloc) (eid rid : Int) :
    pairExists allocs eid rid = true ↔
      ∃ a ∈ allocs, a.event_id = eid ∧ a.resource_id = rid := by
  unfold pairExists
  rw [List.any_eq_true]
  simp

/-- What a successful single allocation implies (helper): the event
resolved, the pair was fresh, the conflict check passed, and exactly the
one allocation row was appended. -/
theorem create_allocation_ok (db : DB) (eid rid : Int) (db2 : DB)
    (h : create_allocation db eid rid = (.ok, db2)) :
    ∃ ev, findEvent db eid = some ev ∧
      pairExists db.allocs eid rid = false ∧
      (check_resource_conflict db rid ev.start_time ev.end_time none).1 = true ∧
      db2 = { db with allocs := db.allocs ++ [⟨eid, rid⟩] } := by
  unfold create_allocation at h
  split at h
  · simp at h
  · split at h
    · simp at h
    · rename_i ev hfe
      split at h
      · simp at h
      · rename_i r hfr
        split at h
        · simp at h
        · rename_i hpe
          split at h
          · rename_i hav
            simp only [Prod.mk.injEq] at h
            refine ⟨ev, hfe, ?_, hav, h.2.symm⟩
            simpa using hpe
          · simp at h

/-- C6: with both ids resolving, an existing allocation for the pair
makes `allocate` fail with AlreadyAllocated and leave the state
unchanged, whatever the conflict situation (the duplicate check runs
before conflict detection); and after a successful `allocate` a second
identical call returns AlreadyAllocated, changes nothing, and exactly
one allocation row for the pair exists. -/
theorem c6_already_allocated (db : DB) (eid rid : Int) (ev : Event) (r : Resource)
    (h0e : eid ≠ 0) (h0r : rid ≠ 0)
    (hev : findEvent db eid = some ev) (hres : findResource db rid = some r) :
    (pairExists db.allocs eid rid = true →
      create_allocation db eid rid = (.alreadyAllocated, db)) ∧
    (∀ db2, create_allocation db eid rid = (.ok, db2) →
      create_allocation db2 eid rid = (.alreadyAllocated, db2) ∧
      countPair db2.allocs eid rid = 1) := by
  have hnot0 : ¬(eid = 0 ∨ rid = 0) := by simp [h0e, h0r]
  constructor
  · intro hpe
    unfold create_allocation
    rw [if_neg hnot0]
    simp only [hev, hres]
    rw [if_pos hpe]
  · intro db2 hok
    obtain ⟨ev2, hfe2, hnp, hav, hdb2⟩ := create_allocation_ok db eid rid db2 hok
    subst hdb2
    have hpe2 : pairExists (db.allocs ++ [⟨eid, rid⟩]) eid rid = true := by
      rw [pairExists_true_iff]
      exact ⟨⟨eid, rid⟩, by simp, rfl, rfl⟩
    constructor
    · unfold create_allocation
      rw [if_neg hnot0]
      simp only [findEvent_update_allocs, findResource_update_allocs, hev, hres]
      rw [if_pos hpe2]
    · have hzero : countPair db.allocs eid rid = 0 := by
        unfold countPair
        rw [List.length_eq_zero, List.filter_eq_nil_iff]
        intro a ha
        have := (pairExists_false_iff db.allocs eid rid).mp hnp a ha
        simpa using this
      have hstep : countPair (db.allocs ++ [⟨eid, rid⟩]) eid rid =
          countPair db.allocs eid rid + 1 := by
        unfold countPair
        rw [List.filter_append, List.length_append]
        simp
      simp only [hstep, hzero]

/-- Witness for C6: re-allocating resource 1 to event 1 in a state where
it is already allocated fails with AlreadyAllocated and changes
nothing. -/
theorem c6_already_allocated_witness :
    create_allocation dbSelf 1 1 = (.alreadyAllocated, dbSelf) :=
  (c6_already_allocated dbSelf 1 1 ⟨1, "A", 0, 10⟩ ⟨1, "Room", "room"⟩
    (by decide) (by decide) (by decide) (by decide)).1 (by decide)

/-- Inserting a key into the dict makes it present with the inserted
value (helper). -/
theorem dictInsert_mem_self {α : Type} (m : List (Int × α)) (k : Int) (v : α) :
    (k, v) ∈ dictInsert m k v := by
  unfold dictInsert
  split
  · rename_i hany
    rw [List.any_eq_true] at hany
    obtain ⟨p, hp, hpk⟩ := hany
    rw [List.mem_map]
    refine ⟨p, hp, ?_⟩
    have hk : p.1 = k := by simpa using hpk
    rw [if_pos hk]
  · exact List.mem_append_right _ (by simp)

/-- When every insertion for a key carries the value `F key`, existing
entries of that shape survive an insertion (helper). -/
theorem dictInsert_mem_preserve {α : Type} (F : Int → α) (m : List (Int × α))
    (k k2 : Int) (h : (k2, F k2) ∈ m) : (k2, F k2) ∈ dictInsert m k (F k) := by
  unfold dictInsert
  split
  · rw [List.mem_map]
    refine ⟨(k2, F k2), h, ?_⟩
    by_cases hk : k2 = k
    · simp [hk]
    · rw [if_neg hk]
  · exact List.mem_append_left _ h

/-- Every entry of the dict satisfies an invariant preserved by
insertion (helper). -/
theorem dictInsert_forall {α : Type} (P : Int × α → Prop) (m : List (Int × α))
    (k : Int) (v : α) (hm : ∀ p ∈ m, P p) (hv : P (k, v)) :
    ∀ p ∈ dictInsert m k v, P p := by
  unfold dictInsert
  split
  · intro p hp
    rw [List.mem_map] at hp
    obtain ⟨q, hq, hmap⟩ := hp
    by_cases hqk : q.1 = k
    · rw [if_pos hqk] at hmap
      exact hmap ▸ hv
    · rw [if_neg hqk] at hmap
      exact hmap ▸ hm q hq
  · intro p hp
    rcases List.mem_append.mp hp with h | h
    · exact hm p h
    · rw [List.mem_singleton] at h
      exact h ▸ hv

/-- Accumulator lemma for the multi-resource check fold (helper). -/
theorem check_multiple_entry (db : DB) (s e : Int) (ex : Option Int) :
    ∀ (rids : List Int) (acc : List (Int × (Bool × List ConflictEntry))) (r : Int),
      ((r, check_resource_conflict db r s e ex) ∈ acc ∨ r ∈ rids) →
      (r, check_resource_conflict db r s e ex) ∈
        rids.foldl (fun results rid =>
          dictInsert results rid (check_resource_conflict db rid s e ex)) acc := by
  intro rids
  induction rids with
  | nil =>
    intro acc r h
    rcases h with h | h
    · exact h
    · cases h
  | cons k t ih =>
    intro acc r h
    rw [List.foldl_cons]
    apply ih
    rcases h with h | h
    · exact Or.inl
        (dictInsert_mem_preserve (fun x => check_resource_conflict db x s e ex) acc k r h)
    · rcases List.mem_cons.mp h with rfl | ht
      · exact Or.inl (dictInsert_mem_self acc r _)
      · exact Or.inr ht

/-- Every requested resource id appears in the multi-resource check
result, bound to its own single-resource check (helper). -/
theorem check_multiple_mem (db : DB) (s e : Int) (ex : Option Int)
    (rids : List Int) (r : Int) (h : r ∈ rids) :
    (r, check_resource_conflict db r s e ex) ∈
      check_multiple_resources_conflict db rids s e ex := by
  unfold check_multiple_resources_conflict
  exact check_multiple_entry db s e ex rids [] r (Or.inr h)

/-- Soundness of the multi-resource check entries: every entry's value
is the single check of its key, and every key was requested (helper). -/
theorem check_multiple_sound (db : DB) (s e : Int) (ex : Option Int) (rids : List Int) :
    ∀ p ∈ check_multiple_resources_conflict db rids s e ex,
      p.2 = check_resource_conflict db p.1 s e ex ∧ p.1 ∈ rids := by
  unfold check_multiple_resources_conflict
  suffices haux : ∀ (l : List Int) (S : List Int)
      (acc : List (Int × (Bool × List ConflictEntry))),
      (∀ p ∈ acc, p.2 = check_resource_conflict db p.1 s e ex ∧ p.1 ∈ S) →
      (∀ k ∈ l, k ∈ S) →
      ∀ p ∈ l.foldl (fun results rid =>
          dictInsert results rid (check_resource_conflict db rid s e ex)) acc,
        p.2 = check_resource_conflict db p.1 s e ex ∧ p.1 ∈ S by
    exact haux rids rids [] (by intro p hp; cases hp) (fun k hk => hk)
  intro l
  induction l with
  | nil =>
    intro S acc hacc _ p hp
    exact hacc p hp
  | cons k t ih =>
    intro S acc hacc hl p hp
    rw [List.foldl_cons] at hp
    refine ih S _ ?_ (fun k2 hk2 => hl k2 (List.mem_cons_of_mem _ hk2)) p hp
    exact dictInsert_forall _ acc k _ hacc ⟨rfl, hl k (List.mem_cons_self k t)⟩

/-- A failing requested resource contributes its entry to
`conflicts_found` (helper). -/
theorem mem_batchConflictsFound (db : DB) (ev : Event) (rids : List Int) (r : Int)
    (hr : r ∈ rids)
    (hf : (check_resource_conflict db r ev.start_time ev.end_time none).1 = false) :
    (r, (check_resource_conflict db r ev.start_time ev.end_time none).2) ∈
      batchConflictsFound db ev rids := by
  unfold batchConflictsFound
  rw [List.mem_map]
  refine ⟨(r, check_resource_conflict db r ev.start_time ev.end_time none), ?_, rfl⟩
  rw [List.mem_filter]
  exact ⟨check_multiple_mem db ev.start_time ev.end_time none rids r hr, by simp [hf]⟩

/-- Every `conflicts_found` entry is a requested resource whose check
failed, paired with that check's conflict list (helper). -/
theorem batchConflictsFound_sound (db : DB) (ev : Event) (rids : List Int) :
    ∀ p ∈ batchConflictsFound db ev rids, p.1 ∈ rids ∧
      (check_resource_conflict db p.1 ev.start_time ev.end_time none).1 = false ∧
      p.2 = (check_resource_conflict db p.1 ev.start_time ev.end_time none).2 := by
  unfold batchConflictsFound
  intro p hp
  rw [List.mem_map] at hp
  obtain ⟨q, hq, hmap⟩ := hp
  rw [List.mem_filter] at hq
  obtain ⟨hq1, hq2⟩ := hq
  obtain ⟨hval, hkey⟩ := check_multiple_sound db ev.start_time ev.end_time none rids q hq1
  subst hmap
  refine ⟨hkey, ?_, by rw [hval]⟩
  rw [← hval]
  simpa using hq2

/-- When some requested resource's check fails, the batch route takes
the conflict branch and leaves the state unchanged (helper). -/
theorem batch_conflict_branch (db : DB) (eid : Int) (rids : List Int) (ev : Event)
    (r : Int) (h0 : eid ≠ 0) (hev : findEvent db eid = some ev) (hr : r ∈ rids)
    (hfail : (check_resource_conflict db r ev.start_time ev.end_time none).1 = false) :
    create_batch_allocations db eid rids =
      (.conflictDetected (batchConflictsFound db ev rids), db) := by
  have hne : batchConflictsFound db ev rids ≠ [] :=
    List.ne_nil_of_mem (mem_batchConflictsFound db ev rids r hr hfail)
  unfold create_batch_allocations
  rw [if_neg (by simp [h0, List.isEmpty_iff, List.ne_nil_of_mem hr])]
  simp only [hev]
  rw [if_pos (by simpa [List.isEmpty_iff] using hne)]

/-- C2: if the event resolves and any requested resource reports a
conflict, the whole batch fails with the conflicts mapping and the
allocation state is unchanged (the returned state is the input state);
the mapping contains one entry per failing requested resource, bound to
that resource's conflict list, and nothing else. -/
theorem c2_batch_atomicity (db : DB) (eid : Int) (rids : List Int) (ev : Event)
    (r : Int) (h0 : eid ≠ 0) (hev : findEvent db eid = some ev) (hr : r ∈ rids)
    (hfail : (check_resource_conflict db r ev.start_time ev.end_time none).1 = false) :
    create_batch_allocations db eid rids =
      (.conflictDetected (batchConflictsFound db ev rids), db) ∧
    (∀ r2 ∈ rids,
      (check_resource_conflict db r2 ev.start_time ev.end_time none).1 = false →
      (r2, (check_resource_conflict db r2 ev.start_time ev.end_time none).2) ∈
        batchConflictsFound db ev rids) ∧
    (∀ p ∈ batchConflictsFound db ev rids, p.1 ∈ rids ∧
      (check_resource_conflict db p.1 ev.start_time ev.end_time none).1 = false ∧
      p.2 = (check_resource_conflict db p.1 ev.start_time ev.end_time none).2) :=
  ⟨batch_conflict_branch db eid rids ev r h0 hev hr hfail,
   fun r2 hr2 hf2 => mem_batchConflictsFound db ev rids r2 hr2 hf2,
   batchConflictsFound_sound db ev rids⟩

/-- Witness for C2: batching resources 1 (conflicting) and 2 (free) onto
event 2 fails outright and leaves the state unchanged. -/
theorem c2_batch_atomicity_witness :
    create_batch_allocations dbTwo 2 [1, 2] =
      (.conflictDetected (batchConflictsFound dbTwo ⟨2, "B", 5, 15⟩ [1, 2]), dbTwo) :=
  (c2_batch_atomicity dbTwo 2 [1, 2] ⟨2, "B", 5, 15⟩ 1
    (by decide) (by decide) (by decide) (by decide)).1

/-- An available check implies the candidate range is not inverted
(helper). -/
theorem check_fst_true_not_ge (db : DB) (rid s e : Int) (ex : Option Int)
    (h : (check_resource_conflict db rid s e ex).1 = true) : ¬ s ≥ e := by
  intro hge
  unfold check_resource_conflict at h
  rw [if_pos hge] at h
  cases h

/-- If the conflict check for a resource against an event's own range
passes, the pair (event, resource) is not currently allocated: an
existing allocation would make the event overlap itself (helper). -/
theorem fresh_of_check_true (db : DB) (eid rid : Int) (ev : Event)
    (hfe : findEvent db eid = some ev)
    (h : (check_resource_conflict db rid ev.start_time ev.end_time none).1 = true) :
    pairExists db.allocs eid rid = false := by
  have hlt := check_fst_true_not_ge db rid ev.start_time ev.end_time none h
  rw [check_fst_iff db rid ev.start_time ev.end_time none hlt] at h
  by_contra hb
  have hb2 : pairExists db.allocs eid rid = true := by simpa using hb
  obtain ⟨a, ha, hae, har⟩ := (pairExists_true_iff db.allocs eid rid).mp hb2
  have hin : ev ∈ conflictQuery db rid ev.start_time ev.end_time none := by
    rw [mem_conflictQuery, mem_conflictScan]
    refine ⟨⟨a, ha, har, by rw [hae]; exact hfe, ?_⟩, by rintro k hk; cases hk⟩
    rw [overlaps_iff]
    simp only [rangeOf]
    omega
  rw [h] at hin
  cases hin

/-- Contrapositive: an already-allocated pair makes the check against
the event's own range fail (helper). -/
theorem check_fails_if_allocated (db : DB) (eid rid : Int) (ev : Event)
    (hfe : findEvent db eid = some ev)
    (hpe : pairExists db.allocs eid rid = true) :
    (check_resource_conflict db rid ev.start_time ev.end_time none).1 = false := by
  by_contra hb
  have hb2 : (check_resource_conflict db rid ev.start_time ev.end_time none).1 = true := by
    simpa using hb
  have := fresh_of_check_true db eid rid ev hfe hb2
  rw [this] at hpe
  cases hpe

/-- What a successful batch allocation implies, in terms of the raw
allocation fold (helper). -/
theorem create_batch_ok (db : DB) (eid : Int) (rids : List Int) (out : List Int)
    (db2 : DB) (h : create_batch_allocations db eid rids = (.ok out, db2)) :
    ∃ ev, findEvent db eid = some ev ∧
      (∀ r ∈ rids,
        (check_resource_conflict db r ev.start_time ev.end_time none).1 = true) ∧
      out = (rids.foldl (batchStep eid) ([], db.allocs)).1 ∧
      db2 = { db with allocs := (rids.foldl (batchStep eid) ([], db.allocs)).2 } := by
  unfold create_batch_allocations at h
  split at h
  · simp at h
  · split at h
    · simp at h
    · rename_i ev hfe
      split at h
      · simp at h
      · rename_i hempty
        simp only [Prod.mk.injEq, BatchResult.ok.injEq] at h
        obtain ⟨hout, hdb⟩ := h
        have hnil : batchConflictsFound db ev rids = [] := by
          have : (batchConflictsFound db ev rids).isEmpty = true := by
            simpa using hempty
          simpa [List.isEmpty_iff] using this
        refine ⟨ev, hfe, ?_, hout.symm, hdb.symm⟩
        intro r hrr
        by_contra hf
        have hff : (check_resource_conflict db r ev.start_time ev.end_time none).1 = false := by
          simpa using hf
        have := mem_batchConflictsFound db ev rids r hrr hff
        rw [hnil] at this
        cases this

/-- Invariant of the batch allocation loop (helper): starting from an
already-deduplicated, fresh prefix `Δ`, the loop extends `Δ` with
exactly the not-yet-seen fresh requested ids, appending one allocation
row per id. -/
theorem batch_fold_spec (eid : Int) (base : List Alloc) :
    ∀ (l : List Int) (Δ : List Int),
      Δ.Nodup → (∀ r ∈ Δ, pairExists base eid r = false) →
      ∃ Δ2, l.foldl (batchStep eid) (Δ, base ++ Δ.map (fun r => ⟨eid, r⟩)) =
          (Δ2, base ++ Δ2.map (fun r => ⟨eid, r⟩)) ∧
        Δ2.Nodup ∧ (∀ r ∈ Δ2, pairExists base eid r = false) ∧
        (∀ r, r ∈ Δ2 ↔ r ∈ Δ ∨ (r ∈ l ∧ pairExists base eid r = false)) := by
  intro l
  induction l with
  | nil =>
    intro Δ h1 h2
    exact ⟨Δ, rfl, h1, h2, by simp⟩
  | cons k t ih =>
    intro Δ h1 h2
    rw [List.foldl_cons]
    by_cases hc : pairExists (base ++ Δ.map (fun r => ⟨eid, r⟩)) eid k = true
    · have hstep : batchStep eid (Δ, base ++ Δ.map (fun r => ⟨eid, r⟩)) k =
          (Δ, base ++ Δ.map (fun r => ⟨eid, r⟩)) := by
        unfold batchStep
        rw [if_pos hc]
      rw [hstep]
      obtain ⟨Δ2, heq, hnd, hfr, hmem⟩ := ih Δ h1 h2
      refine ⟨Δ2, heq, hnd, hfr, ?_⟩
      intro r
      rw [hmem r]
      constructor
      · rintro (h | h)
        · exact Or.inl h
        · exact Or.inr ⟨List.mem_cons_of_mem _ h.1, h.2⟩
      · rintro (h | ⟨hm, hf⟩)
        · exact Or.inl h
        · rcases List.mem_cons.mp hm with rfl | hm2
          · left
            obtain ⟨a, ha, hae, har⟩ := (pairExists_true_iff _ _ _).mp hc
            rcases List.mem_append.mp ha with hb | hm3
            · exact absurd ((pairExists_true_iff base eid r).mpr ⟨a, hb, hae, har⟩)
                (by simp [hf])
            · rw [List.mem_map] at hm3
              obtain ⟨r2, hr2, hmk⟩ := hm3
              subst hmk
              have hr2r : r2 = r := har
              subst hr2r
              exact hr2
          · exact Or.inr ⟨hm2, hf⟩
    · have hc2 : pairExists (base ++ Δ.map (fun r => ⟨eid, r⟩)) eid k = false := by
        simpa using hc
      have hkb : pairExists base eid k = false := by
        by_contra hb
        have hb2 : pairExists base eid k = true := by simpa using hb
        obtain ⟨a, ha, h3⟩ := (pairExists_true_iff _ _ _).mp hb2
        have : pairExists (base ++ Δ.map (fun r => ⟨eid, r⟩)) eid k = true :=
          (pairExists_true_iff _ _ _).mpr ⟨a, List.mem_append_left _ ha, h3⟩
        rw [this] at hc2
        cases hc2
      have hkΔ : k ∉ Δ := by
        intro hk
        have : pairExists (base ++ Δ.map (fun r => ⟨eid, r⟩)) eid k = true :=
          (pairExists_true_iff _ _ _).mpr
            ⟨⟨eid, k⟩, List.mem_append_right _ (List.mem_map_of_mem _ hk), rfl, rfl⟩
        rw [this] at hc2
        cases hc2
      have hstep : batchStep eid (Δ, base ++ Δ.map (fun r => ⟨eid, r⟩)) k =
          (Δ ++ [k], base ++ (Δ ++ [k]).map (fun r => ⟨eid, r⟩)) := by
        unfold batchStep
        rw [if_neg hc]
        simp [List.map_append, List.append_assoc]
      rw [hstep]
      have hnd2 : (Δ ++ [k]).Nodup := by
        rw [List.nodup_append]
        refine ⟨h1, List.nodup_singleton k, ?_⟩
        intro a haΔ hak
        rw [List.mem_singleton] at hak
        subst hak
        exact hkΔ haΔ
      have hfr2 : ∀ r ∈ Δ ++ [k], pairExists base eid r = false := by
        intro r hr
        rcases List.mem_append.mp hr with h | h
        · exact h2 r h
        · rw [List.mem_singleton] at h
          subst h
          exact hkb
      obtain ⟨Δ2, heq, hnd3, hfr3, hmem⟩ := ih (Δ ++ [k]) hnd2 hfr2
      refine ⟨Δ2, heq, hnd3, hfr3, ?_⟩
      intro r
      rw [hmem r]
      constructor
      · rintro (h | ⟨hm, hf⟩)
        · rcases List.mem_append.mp h with h | h
          · exact Or.inl h
          · rw [List.mem_singleton] at h
            rw [h]
            exact Or.inr ⟨List.mem_cons_self k t, hkb⟩
        · exact Or.inr ⟨List.mem_cons_of_mem _ hm, hf⟩
      · rintro (h | ⟨hm, hf⟩)
        · exact Or.inl (List.mem_append_left _ h)
        · rcases List.mem_cons.mp hm with rfl | hm2
          · exact Or.inl (List.mem_append_right _ (by simp))
          · exact Or.inr ⟨hm2, hf⟩

/-- Full characterization of a successful batch allocation (helper): the
event resolves, every requested resource's check passed, no requested
pair pre-existed, and the returned ids are the requested ids
deduplicated, each appended as a new allocation row. -/
theorem create_batch_ok_spec (db : DB) (eid : Int) (rids : List Int) (out : List Int)
    (db2 : DB) (h : create_batch_allocations db eid rids = (.ok out, db2)) :
    ∃ ev, findEvent db eid = some ev ∧
      (∀ r ∈ rids,
        (check_resource_conflict db r ev.start_time ev.end_time none).1 = true) ∧
      (∀ r ∈ rids, pairExists db.allocs eid r = false) ∧
      out.Nodup ∧ (∀ r, r ∈ out ↔ r ∈ rids) ∧
      db2 = { db with allocs := db.allocs ++ out.map (fun r => ⟨eid, r⟩) } := by
  obtain ⟨ev, hfe, hchecks, hout, hdb⟩ := create_batch_ok db eid rids out db2 h
  have hfresh : ∀ r ∈ rids, pairExists db.allocs eid r = false :=
    fun r hr => fresh_of_check_true db eid r ev hfe (hchecks r hr)
  obtain ⟨Δ2, heq, hnd, hfr, hmem⟩ :=
    batch_fold_spec eid db.allocs rids [] (by simp) (by simp)
  rw [show (db.allocs ++ (([] : List Int).map fun r => (⟨eid, r⟩ : Alloc))) = db.allocs
    by simp] at heq
  rw [heq] at hout hdb
  have hout2 : out = Δ2 := hout
  subst hout2
  refine ⟨ev, hfe, hchecks, hfresh, hnd, ?_, hdb⟩
  intro r
  rw [hmem r]
  constructor
  · rintro (h | ⟨hm, -⟩)
    · cases h
    · exact hm
  · intro hm
    exact Or.inr ⟨hm, hfresh r hm⟩

/-- Counterexample to C3 as stated: in `dbSelf` resource 1 is already
allocated to event 1 and no other event exists, yet re-submitting the
batch [1] for event 1 does not succeed with an empty newly-allocated
list — it fails with ConflictDetected, the event's own allocation being
reported as the conflict. -/
theorem c3_batch_resubmission_counterexample :
    (create_batch_allocations dbSelf 1 [1]).1 =
      BatchResult.conflictDetected [(1, [ConflictEntry.record ⟨1, "A", 0, 10, 1⟩])] := by
  decide

/-- C3 amended: the batch conflict check runs without excluding the
target event, so a requested resource already allocated to the event
itself is reported as a conflict and the whole batch fails with
ConflictDetected, the state unchanged (no silent skip across calls).
The silent skip applies only to duplicate ids within one request's
list: when the batch succeeds, no requested resource was previously
allocated to the event, one Allocation is created per distinct
requested id, and the returned list is exactly the requested ids
without duplicates. -/
theorem c3_batch_already_allocated_amended (db : DB) (eid : Int) (rids : List Int)
    (ev : Event) (h0 : eid ≠ 0) (hev : findEvent db eid = some ev) :
    (∀ rid ∈ rids, pairExists db.allocs eid rid = true →
      create_batch_allocations db eid rids =
        (.conflictDetected (batchConflictsFound db ev rids), db)) ∧
    (∀ out db2, create_batch_allocations db eid rids = (.ok out, db2) →
      (∀ r ∈ rids, pairExists db.allocs eid r = false) ∧ out.Nodup ∧
      (∀ r, r ∈ out ↔ r ∈ rids) ∧
      db2 = { db with allocs := db.allocs ++ out.map (fun r => ⟨eid, r⟩) }) := by
  constructor
  · intro rid hrid hpe
    exact batch_conflict_branch db eid rids ev rid h0 hev hrid
      (check_fails_if_allocated db eid rid ev hev hpe)
  · intro out db2 hok
    obtain ⟨ev2, hfe2, -, hfresh, hnd, hmem, hdb⟩ :=
      create_batch_ok_spec db eid rids out db2 hok
    exact ⟨hfresh, hnd, hmem, hdb⟩

/-- Witness for C3 (amended): the failing re-submission branch at the
concrete state of the counterexample. -/
theorem c3_batch_already_allocated_amended_witness :
    create_batch_allocations dbSelf 1 [1] =
      (.conflictDetected (batchConflictsFound dbSelf ⟨1, "A", 0, 10⟩ [1]), dbSelf) :=
  (c3_batch_already_allocated_amended dbSelf 1 [1] ⟨1, "A", 0, 10⟩
    (by decide) (by decide)).1 1 (by decide) (by decide)

/-- Membership in the allocated-events list (helper). -/
theorem mem_allocatedEvents (db : DB) (rid : Int) (ev : Event) :
    ev ∈ allocatedEvents db rid ↔
      ∃ a ∈ db.allocs, a.resource_id = rid ∧ findEvent db a.event_id = some ev := by
  unfold allocatedEvents
  rw [List.mem_filterMap]
  constructor
  · rintro ⟨a, ha, hsc⟩
    unfold allocScan at hsc
    split at hsc
    · rename_i h1
      exact ⟨a, ha, h1, hsc⟩
    · cases hsc
  · rintro ⟨a, ha, h1, hfe⟩
    refine ⟨a, ha, ?_⟩
    unfold allocScan
    rw [if_pos h1, hfe]

/-- Appending allocation rows splits the allocated-events list
(helper). -/
theorem allocatedEvents_append (db : DB) (L : List Alloc) (rid : Int) :
    allocatedEvents { db with allocs := db.allocs ++ L } rid =
      allocatedEvents db rid ++ L.filterMap (allocScan db rid) := by
  show (db.allocs ++ L).filterMap (allocScan { db with allocs := db.allocs ++ L } rid) = _
  have hfn : allocScan { db with allocs := db.allocs ++ L } rid = allocScan db rid := rfl
  rw [hfn, List.filterMap_append]
  rfl

/-- An empty overlap query means no event allocated to the resource
overlaps the candidate range (helper). -/
theorem no_overlap_of_query_empty (db : DB) (rid s e : Int)
    (h : conflictQuery db rid s e none = []) :
    ∀ f ∈ allocatedEvents db rid, overlaps (rangeOf f) ⟨s, e⟩ = false := by
  intro f hf
  by_contra hb
  have hb2 : overlaps (rangeOf f) ⟨s, e⟩ = true := by simpa using hb
  obtain ⟨a, ha, h1, hfe⟩ := (mem_allocatedEvents db rid f).mp hf
  have hin : f ∈ conflictQuery db rid s e none := by
    rw [mem_conflictQuery, mem_conflictScan]
    exact ⟨⟨a, ha, h1, hfe, hb2⟩, by rintro k hk; cases hk⟩
  rw [h] at hin
  cases hin

/-- A successful single allocation preserves the no-double-booking
invariant (helper). -/
theorem allocate_preserves_ndb (db db2 : DB) (eid rid : Int)
    (hndb : NoDoubleBooking db) (h : create_allocation db eid rid = (.ok, db2)) :
    NoDoubleBooking db2 := by
  obtain ⟨ev, hfe, hnp, hav, hdb2⟩ := create_allocation_ok db eid rid db2 h
  have hlt := check_fst_true_not_ge db rid ev.start_time ev.end_time none hav
  rw [check_fst_iff db rid ev.start_time ev.end_time none hlt] at hav
  have hno := no_overlap_of_query_empty db rid ev.start_time ev.end_time hav
  subst hdb2
  intro ρ e1 he1 e2 he2 hne
  rw [allocatedEvents_append] at he1 he2
  have hext : ∀ x, x ∈ ([(⟨eid, rid⟩ : Alloc)] : List Alloc).filterMap (allocScan db ρ) →
      x = ev ∧ rid = ρ := by
    intro x hx
    rw [List.mem_filterMap] at hx
    obtain ⟨a, ha, hsc⟩ := hx
    rw [List.mem_singleton] at ha
    subst ha
    unfold allocScan at hsc
    split at hsc
    · rename_i h1
      have hx2 : findEvent db eid = some x := hsc
      rw [hfe] at hx2
      cases hx2
      exact ⟨rfl, h1⟩
    · cases hsc
  rcases List.mem_append.mp he1 with ho1 | hn1
  · rcases List.mem_append.mp he2 with ho2 | hn2
    · exact hndb ρ e1 ho1 e2 ho2 hne
    · obtain ⟨hx, hρ⟩ := hext e2 hn2
      subst hx
      subst hρ
      exact hno e1 ho1
  · obtain ⟨hx, hρ⟩ := hext e1 hn1
    subst hx
    subst hρ
    rcases List.mem_append.mp he2 with ho2 | hn2
    · rw [overlaps_comm]
      exact hno e2 ho2
    · obtain ⟨hx2, -⟩ := hext e2 hn2
      subst hx2
      exact absurd rfl hne

/-- A successful batch allocation preserves the no-double-booking
invariant (helper). -/
theorem batch_preserves_ndb (db db2 : DB) (eid : Int) (rids out : List Int)
    (hndb : NoDoubleBooking db)
    (h : create_batch_allocations db eid rids = (.ok out, db2)) :
    NoDoubleBooking db2 := by
  obtain ⟨ev, hfe, hchecks, hfresh, hnd, hmem, hdb2⟩ :=
    create_batch_ok_spec db eid rids out db2 h
  subst hdb2
  intro ρ e1 he1 e2 he2 hne
  rw [allocatedEvents_append] at he1 he2
  have hext : ∀ x,
      x ∈ (out.map (fun r => (⟨eid, r⟩ : Alloc))).filterMap (allocScan db ρ) →
      x = ev ∧ ρ ∈ out := by
    intro x hx
    rw [List.mem_filterMap] at hx
    obtain ⟨a, ha, hsc⟩ := hx
    rw [List.mem_map] at ha
    obtain ⟨r, hr, hmk⟩ := ha
    subst hmk
    unfold allocScan at hsc
    split at hsc
    · rename_i h1
      have hx2 : findEvent db eid = some x := hsc
      rw [hfe] at hx2
      cases hx2
      have hrρ : r = ρ := h1
      subst hrρ
      exact ⟨rfl, hr⟩
    · cases hsc
  have hquery : ρ ∈ out → ∀ f ∈ allocatedEvents db ρ,
      overlaps (rangeOf f) ⟨ev.start_time, ev.end_time⟩ = false := by
    intro hρ
    have hρr : ρ ∈ rids := (hmem ρ).mp hρ
    have hav := hchecks ρ hρr
    have hlt := check_fst_true_not_ge db ρ ev.start_time ev.end_time none hav
    rw [check_fst_iff db ρ ev.start_time ev.end_time none hlt] at hav
    exact no_overlap_of_query_empty db ρ ev.start_time ev.end_time hav
  rcases List.mem_append.mp he1 with ho1 | hn1
  · rcases List.mem_append.mp he2 with ho2 | hn2
    · exact hndb ρ e1 ho1 e2 ho2 hne
    · obtain ⟨hx, hρ⟩ := hext e2 hn2
      subst hx
      exact hquery hρ e1 ho1
  · obtain ⟨hx, hρ⟩ := hext e1 hn1
    subst hx
    rcases List.mem_append.mp he2 with ho2 | hn2
    · rw [overlaps_comm]
      exact hquery hρ e2 ho2
    · obtain ⟨hx2, -⟩ := hext e2 hn2
      subst hx2
      exact absurd rfl hne

/-- C1: starting from a state satisfying the no-double-booking
invariant, any sequence of successful `allocate` / `allocateBatch` calls
leaves a state in which, for every resource, the time ranges of distinct
events holding an allocation to it are pairwise non-overlapping. -/
theorem c1_no_double_booking (db : DB) (cs : List Cmd)
    (hinv : NoDoubleBooking db) (hsucc : AllSucceed db cs) :
    NoDoubleBooking (runCmds db cs) := by
  induction cs generalizing db with
  | nil => exact hinv
  | cons c t ih =>
    cases hsucc with
    | cons hc ht =>
      have hstep : NoDoubleBooking (applyCmd db c) := by
        cases c with
        | alloc e r =>
          have hc2 : (create_allocation db e r).1 = AllocResult.ok := hc
          exact allocate_preserves_ndb db (create_allocation db e r).2 e r hinv
            (by rw [← hc2])
        | batch e rs =>
          obtain ⟨out, hout⟩ := hc
          exact batch_preserves_ndb db (create_batch_allocations db e rs).2 e rs out hinv
            (by rw [← hout])
      exact ih (applyCmd db c) hstep ht

/-- Witness for C1: a concrete two-call run (a single allocation, then
an adjacent batch allocation) from an empty, invariant-satisfying
state. -/
theorem c1_no_double_booking_witness :
    NoDoubleBooking (runCmds dbEmpty [Cmd.alloc 1 1, Cmd.batch 2 [1]]) :=
  c1_no_double_booking dbEmpty [Cmd.alloc 1 1, Cmd.batch 2 [1]]
    (by
      intro ρ e1 he1 e2 he2 hne
      simp [allocatedEvents, dbEmpty] at he1)
    (AllSucceed.cons
      (by show (create_allocation dbEmpty 1 1).1 = AllocResult.ok; decide)
      (AllSucceed.cons
        ⟨[1], by
          show (create_batch_allocations (applyCmd dbEmpty (Cmd.alloc 1 1)) 2 [1]).1 =
            BatchResult.ok [1]
          decide⟩
        (AllSucceed.nil _)))

end Theorems

end ResMgmt
